import Mathlib

/-!
Shallow embedding of `borgbackup.py`: the retention selection (`closest` and
the keep-computation of `prune_snapshots`), the filesystem classification
(`filesystem_type`), and the two-phase per-target orchestration of the
`__main__` block.  Timestamps and targets are Python arbitrary-precision
integers, embedded as `Int`.  External effects (subprocess invocations,
`psutil`, directory listings) are modelled by a `World` record of oracles,
and invocations are recorded in an event trace.
-/

namespace Borg

/-- Loop of `closest(target, list)`: state is `(best, best_distance)`, scanning
the list in order and replacing the best only on strictly smaller distance. -/
def closest_go (target : Int) : List Int → Int → Int → Int × Int
  | [], best, best_distance => (best, best_distance)
  | current :: rest, best, best_distance =>
    if |target - current| < best_distance then
      closest_go target rest current (|target - current|)
    else
      closest_go target rest best best_distance

/-- `closest(target, list)` from borgbackup.py: `best = 0`,
`best_distance = target`; returns `best` when it is nonzero, else `None`. -/
def closest (target : Int) (l : List Int) : Option Int :=
  let best := (closest_go target l 0 target).1
  if best ≠ 0 then some best else none

/-- The `time_intervals` dictionary (day/week/month durations in seconds);
other keys would be a Python `KeyError`, embedded as the junk value `0`. -/
def time_intervals (k : String) : Int :=
  if k = "day" then 60 * 60 * 24
  else if k = "week" then 60 * 60 * 24 * 7
  else if k = "month" then 60 * 60 * 24 * 7 * 4
  else 0

/-- The `wanted_snapshots` list built in `prune_snapshots`:
7 daily, then 4 weekly, then 6 monthly labels. -/
def wanted_snapshots : List String :=
  List.replicate 7 "day" ++ List.replicate 4 "week" ++ List.replicate 6 "month"

/-- The keep-selection loop of `prune_snapshots`: for each label, the target is
`last_kept_timestamp - time_intervals[label]` (note: the source never reassigns
`last_kept_timestamp`, so the anchor stays fixed), `closest` picks a candidate,
a `None` result breaks the loop, otherwise the candidate is removed from the
pool (first occurrence, as `list.remove`) and appended to the keep list. -/
def prune_loop (wanted : List String) (last_kept_timestamp : Int) (pool : List Int) : List Int :=
  match wanted with
  | [] => []
  | next_snapshot :: rest =>
    let target_timestamp := last_kept_timestamp - time_intervals next_snapshot
    match closest target_timestamp pool with
    | none => []
    | some c => c :: prune_loop rest last_kept_timestamp (pool.erase c)

/-- The full retention selection of `prune_snapshots` on the parsed timestamps:
the keep-computation with the fixed 7/4/6 policy. -/
def select_keep (now : Int) (pool : List Int) : List Int :=
  prune_loop wanted_snapshots now pool

/-- `subvolume_name_from_subvolume`: replace `/` by `_`, and `_` becomes `ROOT`. -/
def subvolume_name_from_subvolume (subvolume : String) : String :=
  let name := subvolume.replace "/" "_"
  if name = "_" then "ROOT" else name

/-- `snapshotable_fstypes = ("btrfs",)`. -/
def snapshotable_fstypes : List String := ["btrfs"]

/-- One entry of `psutil.disk_partitions()`: the fields used by the source. -/
structure Partition where
  mountpoint : String
  fstype : String
deriving DecidableEq

/-- `filesystem_type(mountpoint)`: filter the active partitions whose
mountpoint equals the argument exactly; raise unless exactly one matches,
otherwise return its fstype. -/
def filesystem_type (partitions : List Partition) (mountpoint : String) : Except String String :=
  match partitions.filter (fun p => p.mountpoint == mountpoint) with
  | [p] => .ok p.fstype
  | ps => .error ("Found more than one (" ++ toString ps.length ++
      ") matching partitions for mountpoint " ++ mountpoint)

/-- A configured backup target before phase 1 (name and mountpoint; the
fields the claims exercise). -/
structure TargetSpec where
  name : String
  mountpoint : String

/-- A target after phase 1: filesystem type resolved, and the snapshot path
set only when the filesystem supports snapshotting. -/
structure ResolvedTarget where
  name : String
  mountpoint : String
  fstype : String
  snapshot : Option String

/-- External invocations performed by the orchestration. -/
inductive Ev where
  | snapCreate (mountpoint dest : String)
  | backupRun (name source : String)
  | archivePrune (name : String)
  | snapDelete (name : String)

/-- Oracles for the external world: mounted partitions, `btrfs subvolume show`,
and the success of each external command, plus the snapshot directory
listing (name with its parsed trailing timestamp) per target. -/
structure World where
  partitions : List Partition
  subvolumeOf : String → String
  snapCreateOk : String → Bool
  backupRC : String → Int
  archivePruneOk : String → Bool
  deleteOk : String → Bool
  snapshotsOf : String → List (String × Int)

/-- The warning appended to `messages` in phase 1 for an unsupported
filesystem type. -/
def unsupported_message (fstype mountpoint : String) : String :=
  "Filesystem type " ++ fstype ++ " of mountpoint " ++ mountpoint ++
    " not supported, unable to create snapshot!"

/-- The warning appended to `messages` in phase 2 when `backup` returns False. -/
def backup_warning (name : String) : String :=
  "Backup of " ++ name ++ " exited with non-zero exit code, check the logs!"

/-- Phase 1 for one target: classify the filesystem (fatal on ambiguity);
when snapshotable, derive the snapshot path and create the snapshot
(`check=True`: fatal on failure); otherwise record one warning and
leave the target without a snapshot path. -/
def phase1_target (w : World) (snapshot_dir : String) (now : Int) (t : TargetSpec) :
    Except String (ResolvedTarget × List String × List Ev) :=
  match filesystem_type w.partitions t.mountpoint with
  | .error e => .error e
  | .ok fstype =>
    if fstype ∈ snapshotable_fstypes then
      let subvolume := w.subvolumeOf t.mountpoint
      let subvolume_name := subvolume_name_from_subvolume subvolume
      let dest := snapshot_dir ++ "/" ++ subvolume_name ++ "-" ++ toString now
      if w.snapCreateOk dest then
        .ok ({ name := t.name, mountpoint := t.mountpoint, fstype := fstype,
               snapshot := some dest }, [], [Ev.snapCreate t.mountpoint dest])
      else
        .error "btrfs subvolume snapshot failed"
    else
      .ok ({ name := t.name, mountpoint := t.mountpoint, fstype := fstype,
             snapshot := none },
           [unsupported_message fstype t.mountpoint], [])

/-- The deletion loop at the end of `prune_snapshots`: delete each listed
snapshot (`check=True`: a failed deletion raises and aborts the run). -/
def delete_loop (w : World) : List (String × Int) → List Ev × Except String Unit
  | [] => ([], .ok ())
  | s :: rest =>
    if w.deleteOk s.1 then
      let p := delete_loop w rest
      (Ev.snapDelete s.1 :: p.1, p.2)
    else
      ([], .error ("btrfs subvolume delete failed for " ++ s.1))

/-- Phase 2 for one target: run `backup` from the snapshot path if one was
created, else from the live mountpoint (recording one warning on a nonzero
return code); then `prune_backups` unconditionally (fatal on failure); then,
for snapshotable targets, the snapshot retention selection and deletions.
The first component is the trace of invocations up to any fatal error. -/
def phase2_target (w : World) (now : Int) (r : ResolvedTarget) :
    List Ev × Except String (List String) :=
  let source := r.snapshot.getD r.mountpoint
  let msgs := if w.backupRC r.name = 0 then ([] : List String) else [backup_warning r.name]
  if w.archivePruneOk r.name then
    if r.fstype ∈ snapshotable_fstypes then
      let snaps := w.snapshotsOf r.name
      let keep := prune_loop wanted_snapshots now (snaps.map Prod.snd)
      let del := delete_loop w (snaps.filter fun s => decide (s.2 ∉ keep))
      match del.2 with
      | .ok _ => ([Ev.backupRun r.name source, Ev.archivePrune r.name] ++ del.1, .ok msgs)
      | .error e => ([Ev.backupRun r.name source, Ev.archivePrune r.name] ++ del.1, .error e)
    else
      ([Ev.backupRun r.name source, Ev.archivePrune r.name], .ok msgs)
  else
    ([Ev.backupRun r.name source], .error "borg prune failed")

/-- The phase-2 sweep over all targets, accumulating recoverable warnings;
a fatal error stops the sweep. -/
def phase2_run (w : World) (now : Int) :
    List ResolvedTarget → List String → List Ev × Except String (List String)
  | [], msgs => ([], .ok msgs)
  | r :: rest, msgs =>
    match phase2_target w now r with
    | (tr, .error e) => (tr, .error e)
    | (tr, .ok m) =>
      let p := phase2_run w now rest (msgs ++ m)
      (tr ++ p.1, p.2)

/-- Characterization of the `closest` loop: either no element beats the
incoming `best_distance` and the state is returned unchanged, or the result
is the first element attaining the minimum distance, which is strictly below
the incoming `best_distance`. -/
theorem closest_go_cases (target : Int) (l : List Int) : ∀ best bd : Int,
    (closest_go target l best bd = (best, bd) ∧ ∀ c ∈ l, bd ≤ |target - c|) ∨
    (∃ b, closest_go target l best bd = (b, |target - b|) ∧ b ∈ l ∧ |target - b| < bd ∧
      (∀ c ∈ l, |target - b| ≤ |target - c|) ∧
      l.find? (fun c => decide (|target - c| ≤ |target - b|)) = some b) := by
  induction l with
  | nil =>
    intro best bd
    exact Or.inl ⟨rfl, by intro c hc; cases hc⟩
  | cons current rest ih =>
    intro best bd
    by_cases h : |target - current| < bd
    · rcases ih current (|target - current|) with ⟨heq, hall⟩ | ⟨b, heq, hmem, hlt, hmin, hfind⟩
      · refine Or.inr ⟨current, ?_, List.mem_cons_self _ _, h, ?_, ?_⟩
        · simpa [closest_go, h] using heq
        · intro c hc
          rcases List.mem_cons.mp hc with rfl | hc
          · exact le_refl _
          · exact hall c hc
        · exact List.find?_cons_of_pos _ (by simp)
      · refine Or.inr ⟨b, ?_, List.mem_cons_of_mem _ hmem, lt_trans hlt h, ?_, ?_⟩
        · simpa [closest_go, h] using heq
        · intro c hc
          rcases List.mem_cons.mp hc with rfl | hc
          · exact le_of_lt hlt
          · exact hmin c hc
        · rw [List.find?_cons_of_neg _ (by simp [not_le.mpr hlt])]
          exact hfind
    · rcases ih best bd with ⟨heq, hall⟩ | ⟨b, heq, hmem, hlt, hmin, hfind⟩
      · refine Or.inl ⟨?_, ?_⟩
        · simpa [closest_go, h] using heq
        · intro c hc
          rcases List.mem_cons.mp hc with rfl | hc
          · exact not_lt.mp h
          · exact hall c hc
      · refine Or.inr ⟨b, ?_, List.mem_cons_of_mem _ hmem, hlt, ?_, ?_⟩
        · simpa [closest_go, h] using heq
        · intro c hc
          rcases List.mem_cons.mp hc with rfl | hc
          · exact le_of_lt (lt_of_lt_of_le hlt (not_lt.mp h))
          · exact hmin c hc
        · rw [List.find?_cons_of_neg _ (by simp [not_le.mpr (lt_of_lt_of_le hlt (not_lt.mp h))])]
          exact hfind

/-- A successful `closest` result is a member of the pool, nonzero, strictly
within `target` of the target, of minimal distance over the whole pool, and is
the first element of the pool attaining that minimal distance. -/
theorem closest_some_spec {target : Int} {l : List Int} {b : Int}
    (h : closest target l = some b) :
    b ∈ l ∧ b ≠ 0 ∧ |target - b| < target ∧
    (∀ c ∈ l, |target - b| ≤ |target - c|) ∧
    l.find? (fun c => decide (|target - c| ≤ |target - b|)) = some b := by
  unfold closest at h
  rcases closest_go_cases target l 0 target with ⟨heq, _⟩ | ⟨b', heq, hmem, hlt, hmin, hfind⟩
  · rw [heq] at h
    simp at h
  · rw [heq] at h
    by_cases hz : b' = 0
    · simp [hz] at h
    · simp [hz] at h
      subst h
      exact ⟨hmem, hz, hlt, hmin, hfind⟩

/-- When `closest` returns `None`, every pool element is at distance at least
`target` from the target. -/
theorem closest_none_bound {target : Int} {l : List Int}
    (h : closest target l = none) : ∀ c ∈ l, target ≤ |target - c| := by
  unfold closest at h
  rcases closest_go_cases target l 0 target with ⟨heq, hall⟩ | ⟨b', heq, hmem, hlt, hmin, hfind⟩
  · rw [heq] at h
    exact hall
  · rw [heq] at h
    by_cases hz : b' = 0
    · subst hz
      simp at hlt
      exact absurd hlt (not_lt.mpr (le_abs_self target))
    · simp [hz] at h

/-- A selected candidate is strictly positive. -/
theorem closest_pos {target : Int} {l : List Int} {b : Int}
    (h : closest target l = some b) : 0 < b := by
  have hlt := (closest_some_spec h).2.2.1
  have h1 : target - b ≤ |target - b| := le_abs_self _
  linarith

/-- If the head of the pool is strictly within `target` of the target and of
minimal distance, `closest` selects it. -/
theorem closest_head {target k : Int} {rest : List Int}
    (h1 : |target - k| < target)
    (h2 : ∀ c ∈ rest, |target - k| ≤ |target - c|) :
    closest target (k :: rest) = some k := by
  have hk : k ≠ 0 := by
    intro hz
    subst hz
    simp at h1
    exact absurd h1 (not_lt.mpr (le_abs_self target))
  unfold closest
  have hgo : closest_go target (k :: rest) 0 target = closest_go target rest k (|target - k|) := by
    simp [closest_go, h1]
  rcases closest_go_cases target rest k (|target - k|) with ⟨heq, _⟩ | ⟨b', heq, hmem, hlt, _, _⟩
  · rw [hgo, heq]
    simp [hk]
  · exact absurd hlt (not_lt.mpr (h2 b' hmem))

/-- Erasing a value that `find?` did not return preserves the `find?` result. -/
theorem find_erase {p : Int → Bool} {b m : Int} :
    ∀ l : List Int, l.find? p = some b → b ≠ m → (l.erase m).find? p = some b := by
  intro l
  induction l with
  | nil => intro h; simp at h
  | cons c rest ih =>
    intro h hbm
    by_cases hcm : c = m
    · subst hcm
      rw [List.erase_cons_head]
      by_cases hp : p c
      · rw [List.find?_cons_of_pos _ hp] at h
        simp at h
        exact absurd h.symm hbm
      · rw [List.find?_cons_of_neg _ hp] at h
        exact h
    · rw [List.erase_cons_tail (by simp [hcm])]
      by_cases hp : p c
      · rw [List.find?_cons_of_pos _ hp] at h ⊢
        exact h
      · rw [List.find?_cons_of_neg _ hp] at h ⊢
        exact ih h hbm

/-- Removing a value other than the selected one from the pool does not change
the selection. -/
theorem closest_erase {target : Int} {l : List Int} {b m : Int}
    (h : closest target l = some b) (hbm : b ≠ m) :
    closest target (l.erase m) = some b := by
  obtain ⟨hmem, hz, hlt, hmin, hfind⟩ := closest_some_spec h
  have hmem' : b ∈ l.erase m := (List.mem_erase_of_ne hbm).mpr hmem
  unfold closest
  rcases closest_go_cases target (l.erase m) 0 target with ⟨heq, hall⟩ | ⟨b2, heq, hm2, hlt2, hmin2, hfind2⟩
  · exact absurd hlt (not_lt.mpr (hall b hmem'))
  · have hz2 : b2 ≠ 0 := by
      intro h0
      subst h0
      simp at hlt2
      exact absurd hlt2 (not_lt.mpr (le_abs_self target))
    rw [heq]
    simp [hz2]
    have hdd : |target - b2| = |target - b| :=
      le_antisymm (hmin2 b hmem') (hmin b2 (List.erase_subset _ _ hm2))
    have hfind' : (l.erase m).find? (fun c => decide (|target - c| ≤ |target - b|)) = some b :=
      find_erase l hfind hbm
    rw [hdd] at hfind2
    rw [hfind2] at hfind'
    exact (Option.some.injEq _ _ ▸ hfind').symm ▸ rfl

/-- Every kept timestamp comes from the pool. -/
theorem prune_loop_subset (wanted : List String) (last : Int) :
    ∀ pool : List Int, ∀ x ∈ prune_loop wanted last pool, x ∈ pool := by
  induction wanted with
  | nil => intro pool x hx; simp [prune_loop] at hx
  | cons w rest ih =>
    intro pool x hx
    rw [prune_loop] at hx
    rcases hcl : closest (last - time_intervals w) pool with _ | c
    · rw [hcl] at hx
      simp at hx
    · rw [hcl] at hx
      rcases List.mem_cons.mp hx with rfl | hx
      · exact (closest_some_spec hcl).1
      · exact List.erase_subset _ _ (ih (pool.erase c) x hx)

/-- The keep list is at most as long as the expanded tier sequence. -/
theorem prune_loop_length (wanted : List String) (last : Int) :
    ∀ pool : List Int, (prune_loop wanted last pool).length ≤ wanted.length := by
  induction wanted with
  | nil => intro pool; simp [prune_loop]
  | cons w rest ih =>
    intro pool
    rw [prune_loop]
    rcases hcl : closest (last - time_intervals w) pool with _ | c
    · simp
    · simpa using Nat.succ_le_succ (ih (pool.erase c))

/-- Every kept timestamp is strictly positive. -/
theorem prune_loop_pos (wanted : List String) (last : Int) :
    ∀ pool : List Int, ∀ x ∈ prune_loop wanted last pool, 0 < x := by
  induction wanted with
  | nil => intro pool x hx; simp [prune_loop] at hx
  | cons w rest ih =>
    intro pool x hx
    rw [prune_loop] at hx
    rcases hcl : closest (last - time_intervals w) pool with _ | c
    · rw [hcl] at hx
      simp at hx
    · rw [hcl] at hx
      rcases List.mem_cons.mp hx with rfl | hx
      · exact closest_pos hcl
      · exact ih (pool.erase c) x hx

/-- Rerunning the selection on its own keep list reproduces the keep list. -/
theorem prune_loop_idem (wanted : List String) (last : Int) :
    ∀ pool : List Int,
      prune_loop wanted last (prune_loop wanted last pool) = prune_loop wanted last pool := by
  induction wanted with
  | nil => intro pool; simp [prune_loop]
  | cons w rest ih =>
    intro pool
    rcases hcl : closest (last - time_intervals w) pool with _ | c
    · have hR : prune_loop (w :: rest) last pool = [] := by
        rw [prune_loop, hcl]
      rw [hR]
      rfl
    · have hR : prune_loop (w :: rest) last pool =
          c :: prune_loop rest last (pool.erase c) := by
        rw [prune_loop, hcl]
      rw [hR]
      have hhead : closest (last - time_intervals w)
          (c :: prune_loop rest last (pool.erase c)) = some c := by
        refine closest_head (closest_some_spec hcl).2.2.1 ?_
        intro x hx
        exact (closest_some_spec hcl).2.2.2.1 x
          (List.erase_subset _ _ (prune_loop_subset rest last (pool.erase c) x hx))
      rw [prune_loop, hhead]
      show c :: prune_loop rest last ((c :: prune_loop rest last (pool.erase c)).erase c) =
        c :: prune_loop rest last (pool.erase c)
      rw [List.erase_cons_head]
      rw [ih (pool.erase c)]

/-- Erasing a value that the selection never keeps does not change the
selection. -/
theorem prune_loop_erase_of_not_mem (wanted : List String) (last : Int) :
    ∀ (pool : List Int) (m : Int), m ∉ prune_loop wanted last pool →
      prune_loop wanted last (pool.erase m) = prune_loop wanted last pool := by
  induction wanted with
  | nil => intro pool m _; simp [prune_loop]
  | cons w rest ih =>
    intro pool m hm
    rcases hcl : closest (last - time_intervals w) pool with _ | c
    · have hR : prune_loop (w :: rest) last pool = [] := by
        rw [prune_loop, hcl]
      rw [hR]
      rcases hcl' : closest (last - time_intervals w) (pool.erase m) with _ | c'
      · rw [prune_loop, hcl']
      · have := (closest_some_spec hcl').2.2.1
        have hb := closest_none_bound hcl c' (List.erase_subset _ _ (closest_some_spec hcl').1)
        exact absurd this (not_lt.mpr hb)
    · have hR : prune_loop (w :: rest) last pool =
          c :: prune_loop rest last (pool.erase c) := by
        rw [prune_loop, hcl]
      rw [hR] at hm ⊢
      have hmc : m ≠ c := by
        intro he
        exact hm (he ▸ List.mem_cons_self _ _)
      have hcl' : closest (last - time_intervals w) (pool.erase m) = some c :=
        closest_erase hcl (fun he => hmc he.symm)
      rw [prune_loop, hcl']
      show c :: prune_loop rest last ((pool.erase m).erase c) =
        c :: prune_loop rest last (pool.erase c)
      rw [List.erase_comm]
      rw [ih (pool.erase c) m (fun hx => hm (List.mem_cons_of_mem _ hx))]

/-- A deletion sweep over snapshots whose deletions all succeed is not fatal. -/
theorem delete_loop_ok {w : World} :
    ∀ l : List (String × Int), (∀ s ∈ l, w.deleteOk s.1 = true) →
      (delete_loop w l).2 = Except.ok () := by
  intro l
  induction l with
  | nil => intro _; rfl
  | cons s rest ih =>
    intro h
    rw [delete_loop]
    rw [h s (List.mem_cons_self _ _)]
    simpa using ih (fun x hx => h x (List.mem_cons_of_mem _ hx))

/-- When every deletion succeeds and the archive prune succeeds, phase 2 of a
target completes without a fatal error, its trace starts with the backup
invocation followed by the archive prune, and its recorded warnings are empty
or the single backup warning according to the backup return code. -/
theorem phase2_target_ok (w : World) (now : Int) (r : ResolvedTarget)
    (hp : w.archivePruneOk r.name = true)
    (hd : ∀ s ∈ w.snapshotsOf r.name, w.deleteOk s.1 = true) :
    ∃ tl, phase2_target w now r =
      (Ev.backupRun r.name (r.snapshot.getD r.mountpoint) :: Ev.archivePrune r.name :: tl,
       Except.ok (if w.backupRC r.name = 0 then ([] : List String) else [backup_warning r.name])) := by
  simp only [phase2_target, hp, if_true]
  by_cases hft : r.fstype ∈ snapshotable_fstypes
  · simp only [if_pos hft]
    split
    next u heq => exact ⟨_, rfl⟩
    next e heq =>
      rw [delete_loop_ok _ (fun s hs => hd s (List.mem_of_mem_filter hs))] at heq
      cases heq
  · simp only [if_neg hft]
    exact ⟨[], rfl⟩

/-- Claim C1 (counterexample): on the scenario now = 1000000, tiers
daily=2 then weekly=1, pool {999900, 913000, 395000}, the code's keep list is
not {913000}: it also keeps 999900 (and 395000), because the anchor never
advances and the second daily slot finds 999900 within range of 913600. -/
theorem C1_scenario_counterexample :
    prune_loop ["day", "day", "week"] 1000000 [999900, 913000, 395000] ≠ [913000] ∧
    (999900 : Int) ∈ prune_loop ["day", "day", "week"] 1000000 [999900, 913000, 395000] := by
  decide

/-- Claim C1 (amended): on the same scenario the first daily slot keeps
913000; the anchor stays at now = 1000000, so the second daily slot again
targets 913600 and keeps 999900; the weekly slot targets 395200 and keeps
395000; the keep list is [913000, 999900, 395000]. -/
theorem C1_scenario_amended :
    closest (1000000 - time_intervals "day") [999900, 913000, 395000] = some 913000 ∧
    closest (1000000 - time_intervals "day") [999900, 395000] = some 999900 ∧
    closest (1000000 - time_intervals "week") [395000] = some 395000 ∧
    prune_loop ["day", "day", "week"] 1000000 [999900, 913000, 395000] =
      [913000, 999900, 395000] := by
  decide

/-- Claim C2: for a pool of (nonnegative) timestamps, a chosen candidate is a
pool member, is never the literal 0, lies strictly closer to the target than
the target is to zero, minimizes the distance over the pool, and is the first
pool element attaining that minimal distance (so an equally distant later
candidate never overrides); and whenever some pool element lies strictly
closer to the target than the target is to zero, a candidate is chosen. -/
theorem C2_closest_search (target : Int) (pool : List Int)
    (hpos : ∀ c ∈ pool, 0 ≤ c) :
    (∀ b, closest target pool = some b →
      b ∈ pool ∧ b ≠ 0 ∧ |target - b| < |target| ∧
      (∀ c ∈ pool, |target - b| ≤ |target - c|) ∧
      pool.find? (fun c => decide (|target - c| ≤ |target - b|)) = some b) ∧
    ((∃ c ∈ pool, |target - c| < |target|) → ∃ b, closest target pool = some b) := by
  constructor
  · intro b hb
    obtain ⟨hmem, hz, hlt, hmin, hfind⟩ := closest_some_spec hb
    exact ⟨hmem, hz, lt_of_lt_of_le hlt (le_abs_self target), hmin, hfind⟩
  · rintro ⟨c, hc, hlt⟩
    have htpos : 0 < target := by
      by_contra h0
      push_neg at h0
      have hc0 := hpos c hc
      have h1 : |target - c| = c - target := by
        rw [abs_of_nonpos (by linarith)]
        ring
      have h2 : |target| = -target := abs_of_nonpos h0
      rw [h1, h2] at hlt
      linarith
    rcases hcl : closest target pool with _ | b
    · have := closest_none_bound hcl c hc
      rw [abs_of_pos htpos] at hlt
      linarith
    · exact ⟨b, rfl⟩

/-- Witness for C2 at a concrete input, including an equal-distance tie where
the earlier candidate wins. -/
theorem C2_closest_search_witness :
    closest 10 [7, 13] = some 7 ∧
    List.find? (fun c => decide (|(10 : Int) - c| ≤ |(10 : Int) - 7|)) [7, 13] = some 7 := by
  have h := (C2_closest_search 10 [7, 13] (by decide)).1 7 (by decide)
  exact ⟨by decide, h.2.2.2.2⟩

/-- Claim C3: when `closest` finds no candidate at a step, the remaining tier
sequence is not processed at all (the result does not depend on the remaining
labels and nothing further is kept); in particular a miss at the first daily
slot makes the whole keep-set empty. -/
theorem C3_early_termination (now : Int) (pool : List Int) (w : String)
    (rest rest2 : List String)
    (h : closest (now - time_intervals w) pool = none) :
    prune_loop (w :: rest) now pool = [] ∧
    prune_loop (w :: rest) now pool = prune_loop (w :: rest2) now pool ∧
    (closest (now - time_intervals "day") pool = none → select_keep now pool = []) := by
  have h1 : ∀ r : List String, prune_loop (w :: r) now pool = [] := by
    intro r
    rw [prune_loop, h]
  refine ⟨h1 rest, by rw [h1 rest, h1 rest2], ?_⟩
  intro h2
  show prune_loop wanted_snapshots now pool = []
  have hws : wanted_snapshots =
      "day" :: (List.replicate 6 "day" ++ (List.replicate 4 "week" ++ List.replicate 6 "month")) := rfl
  rw [hws, prune_loop, h2]

/-- Witness for C3: a pool whose only timestamp is out of reach of the first
daily target yields an empty keep-set. -/
theorem C3_early_termination_witness : select_keep 1000000 [2500000] = [] := by
  have h : closest (1000000 - time_intervals "day") [2500000] = none := by decide
  exact (C3_early_termination 1000000 [2500000] "day" [] [] h).2.2 h

/-- Claim C4: the keep-set is always a subset of the existing timestamps, has
at most 17 elements (7 + 4 + 6 slots), and an empty pool yields an empty
keep-set. -/
theorem C4_subset_bound (now : Int) (pool : List Int) :
    (∀ x ∈ select_keep now pool, x ∈ pool) ∧
    (select_keep now pool).length ≤ 17 ∧
    select_keep now [] = [] := by
  refine ⟨prune_loop_subset wanted_snapshots now pool, ?_, rfl⟩
  have h := prune_loop_length wanted_snapshots now pool
  have h17 : wanted_snapshots.length = 17 := rfl
  rw [h17] at h
  exact h

/-- Witness for C4 at a concrete input. -/
theorem C4_subset_bound_witness :
    (913000 : Int) ∈ [(913000 : Int)] ∧ (select_keep 1000000 [913000]).length ≤ 17 :=
  ⟨(C4_subset_bound 1000000 [913000]).1 913000 (by decide),
   (C4_subset_bound 1000000 [913000]).2.1⟩

/-- Claim C5: pruning is idempotent: rerunning the selection on its own
keep-set (with the same now and policy) returns exactly the same keep-set. -/
theorem C5_idempotent (now : Int) (pool : List Int) :
    select_keep now (select_keep now pool) = select_keep now pool :=
  prune_loop_idem wanted_snapshots now pool

/-- Claim C6: removing the most recent timestamp from the pool never makes a
timestamp appear in the new keep-set that is more recent than every timestamp
of the old keep-set. -/
theorem C6_monotone (now m : Int) (pool : List Int)
    (_hm : m ∈ pool) (hmax : ∀ x ∈ pool, x ≤ m) :
    ∀ t ∈ select_keep now (pool.erase m), ∃ u ∈ select_keep now pool, t ≤ u := by
  intro t ht
  by_cases hK : m ∈ select_keep now pool
  · exact ⟨m, hK, hmax t (List.erase_subset _ _
      (prune_loop_subset wanted_snapshots now (pool.erase m) t ht))⟩
  · have ht' : t ∈ prune_loop wanted_snapshots now (pool.erase m) := ht
    rw [prune_loop_erase_of_not_mem wanted_snapshots now pool m hK] at ht'
    exact ⟨t, ht', le_refl t⟩

/-- Witness for C6 at a concrete input. -/
theorem C6_monotone_witness :
    ∃ u ∈ select_keep 1000000 [999900, 913000], (913000 : Int) ≤ u :=
  C6_monotone 1000000 999900 [999900, 913000] (by decide) (by decide) 913000 (by decide)

/-- Claim C7: with a failing backup but successful archive prune (and
successful snapshot deletions), phase 2 of a target records exactly the one
backup warning, its trace shows the archive prune invoked right after the
backup, and the run proceeds to the remaining targets with outcome determined
by them alone. -/
theorem C7_backup_failure_recoverable (w : World) (now : Int) (r : ResolvedTarget)
    (rest : List ResolvedTarget) (msgs : List String)
    (hb : w.backupRC r.name ≠ 0)
    (hp : w.archivePruneOk r.name = true)
    (hd : ∀ s ∈ w.snapshotsOf r.name, w.deleteOk s.1 = true) :
    (phase2_target w now r).2 = .ok [backup_warning r.name] ∧
    (∃ tl, (phase2_target w now r).1 =
      Ev.backupRun r.name (r.snapshot.getD r.mountpoint) :: Ev.archivePrune r.name :: tl) ∧
    (phase2_run w now (r :: rest) msgs).2 =
      (phase2_run w now rest (msgs ++ [backup_warning r.name])).2 := by
  obtain ⟨tl, htl⟩ := phase2_target_ok w now r hp hd
  rw [if_neg hb] at htl
  refine ⟨by rw [htl], ⟨tl, by rw [htl]⟩, ?_⟩
  rw [phase2_run, htl]

/-- Witness for C7 at a concrete input. -/
theorem C7_backup_failure_recoverable_witness :
    (phase2_target ⟨[], fun _ => "", fun _ => true, fun _ => 1, fun _ => true,
        fun _ => true, fun _ => []⟩ 5 ⟨"data", "/mnt", "ext4", none⟩).2 =
      .ok [backup_warning "data"] :=
  (C7_backup_failure_recoverable _ 5 _ [] [] (by decide) rfl
    (by intro s hs; exact absurd hs (List.not_mem_nil s))).1

/-- Claim C8: a target whose resolved filesystem type is not snapshotable gets
exactly one recorded warning mentioning the filesystem type and the mount
point, no snapshot is created (empty phase-1 trace, no snapshot path), and the
backup step is still invoked with the live mount point as source. -/
theorem C8_unsupported_fs (w : World) (snapshot_dir : String) (now : Int)
    (t : TargetSpec) (fs : String)
    (hfs : filesystem_type w.partitions t.mountpoint = .ok fs)
    (hns : fs ∉ snapshotable_fstypes) :
    ∃ res : ResolvedTarget,
      phase1_target w snapshot_dir now t =
        .ok (res, [unsupported_message fs t.mountpoint], []) ∧
      (∃ s1 s2 s3 : String,
        unsupported_message fs t.mountpoint = s1 ++ fs ++ s2 ++ t.mountpoint ++ s3) ∧
      res.snapshot = none ∧
      (∃ tl, (phase2_target w now res).1 = Ev.backupRun t.name t.mountpoint :: tl) := by
  refine ⟨{ name := t.name, mountpoint := t.mountpoint, fstype := fs, snapshot := none },
    ?_, ⟨"Filesystem type ", " of mountpoint ",
      " not supported, unable to create snapshot!", rfl⟩, rfl, ?_⟩
  · simp only [phase1_target, hfs]
    rw [if_neg hns]
  · by_cases hap : w.archivePruneOk t.name = true
    · refine ⟨[Ev.archivePrune t.name], ?_⟩
      simp only [phase2_target, hap, if_true, if_neg hns]
      rfl
    · refine ⟨[], ?_⟩
      simp only [phase2_target, if_neg hap]
      rfl

/-- Witness for C8 at a concrete input. -/
theorem C8_unsupported_fs_witness :
    ∃ res : ResolvedTarget,
      phase1_target ⟨[⟨"/mnt", "ext4"⟩], fun _ => "", fun _ => true, fun _ => 0,
          fun _ => true, fun _ => true, fun _ => []⟩ "/@snapshots" 77 ⟨"data", "/mnt"⟩ =
        .ok (res, [unsupported_message "ext4" "/mnt"], []) ∧
      (∃ s1 s2 s3 : String,
        unsupported_message "ext4" "/mnt" = s1 ++ "ext4" ++ s2 ++ "/mnt" ++ s3) ∧
      res.snapshot = none ∧
      (∃ tl, (phase2_target ⟨[⟨"/mnt", "ext4"⟩], fun _ => "", fun _ => true, fun _ => 0,
          fun _ => true, fun _ => true, fun _ => []⟩ 77 res).1 =
        Ev.backupRun "data" "/mnt" :: tl) :=
  C8_unsupported_fs _ "/@snapshots" 77 ⟨"data", "/mnt"⟩ "ext4" rfl (by decide)

/-- Claim C9: the filesystem classification fails whenever the number of
active mounts matching the mount point exactly is not one, and otherwise
returns the single matching mount's filesystem type. -/
theorem C9_filesystem_type (partitions : List Partition) (mountpoint : String) :
    ((partitions.filter (fun p => p.mountpoint == mountpoint)).length ≠ 1 →
      ∃ e, filesystem_type partitions mountpoint = .error e) ∧
    (∀ p : Partition, partitions.filter (fun q => q.mountpoint == mountpoint) = [p] →
      filesystem_type partitions mountpoint = .ok p.fstype) := by
  constructor
  · intro h
    rcases hfe : filesystem_type partitions mountpoint with e | v
    · exact ⟨e, rfl⟩
    · exfalso
      unfold filesystem_type at hfe
      rcases hf : partitions.filter (fun p => p.mountpoint == mountpoint) with _ | ⟨p, _ | ⟨q, l⟩⟩ <;>
        rw [hf] at hfe
      · cases hfe
      · rw [hf] at h
        simp at h
      · cases hfe
  · intro p hp
    simp only [filesystem_type, hp]

/-- Witness for C9 at concrete inputs: a unique match classifies, a missing
match fails. -/
theorem C9_filesystem_type_witness :
    filesystem_type [⟨"/", "btrfs"⟩] "/" = .ok "btrfs" ∧
    (∃ e, filesystem_type [⟨"/", "btrfs"⟩] "/x" = .error e) :=
  ⟨(C9_filesystem_type [⟨"/", "btrfs"⟩] "/").2 ⟨"/", "btrfs"⟩ rfl,
   (C9_filesystem_type [⟨"/", "btrfs"⟩] "/x").1 (by decide)⟩

/-- Claim C10: a nonpositive target never selects a candidate, any selected
candidate is strictly positive, every kept timestamp is strictly positive, and
the chain stops at a step whose anchor minus the tier duration is zero or
below. -/
theorem C10_nonpositive_target (target now : Int) (pool : List Int)
    (wanted : List String) (w : String) (rest : List String) :
    (target ≤ 0 → closest target pool = none) ∧
    (∀ b, closest target pool = some b → 0 < b) ∧
    (∀ t ∈ prune_loop wanted now pool, 0 < t) ∧
    (now - time_intervals w ≤ 0 → prune_loop (w :: rest) now pool = []) := by
  have hnone : ∀ s : Int, s ≤ 0 → ∀ q : List Int, closest s q = none := by
    intro s hs q
    rcases hcl : closest s q with _ | b
    · rfl
    · have hlt := (closest_some_spec hcl).2.2.1
      have := abs_nonneg (s - b)
      linarith
  refine ⟨fun h => hnone target h pool, fun b hb => closest_pos hb,
    prune_loop_pos wanted now pool, fun h => ?_⟩
  rw [prune_loop, hnone _ h pool]

/-- Witness for C10 at concrete inputs. -/
theorem C10_nonpositive_target_witness :
    closest (-5) [3] = none ∧ (0 : Int) < 7 ∧ prune_loop ["day"] 50000 [40000] = [] :=
  ⟨(C10_nonpositive_target (-5) 0 [3] [] "day" []).1 (by decide),
   (C10_nonpositive_target 10 0 [7] [] "day" []).2.1 7 (by decide),
   (C10_nonpositive_target 0 50000 [40000] [] "day" []).2.2.2 (by decide)⟩

end Borg
